import Mathlib

/-!
Verification development for the `hub-recovery` tool.

The Rust sources are shallowly embedded: persistent hash maps become
association lists keyed by strings, `u64` arithmetic becomes natural-number
arithmetic reduced modulo `2 ^ 64`, and external collaborators (the LDK node
engine, the file system, JSON parsing and AEAD primitives) become explicit
oracle parameters.  The `run` function of `src/main.rs` is modelled as a pure
function from the loaded recovery state, the parsed backup and the oracles to
a record of its observable effects: the sequence of recovery-state values
over time, the snapshots written to the state file, whether channel monitors
were restored, the peer-connection attempts, and the final result.
-/

namespace HubRecovery

/-! ## Recovery state (`src/state.rs`) -/

/-- `ChannelState` from `state.rs`: per-channel recovery progress. -/
inductive ChannelState
  | Pending
  | ForceCloseInitiated
deriving DecidableEq, Repr

/-- First-match lookup in an association list; models `HashMap::get`. -/
def listGet {β : Type} : List (String × β) → String → Option β
  | [], _ => none
  | (k, v) :: rest, key => if k = key then some v else listGet rest key

/-- Replace-or-append update of an association list; models `HashMap::insert`. -/
def listSet {β : Type} : List (String × β) → String → β → List (String × β)
  | [], key, v => [(key, v)]
  | (k, w) :: rest, key, v =>
      if k = key then (key, v) :: rest else (k, w) :: listSet rest key v

/-- `State` from `state.rs`: map of channel states by peer ID. -/
structure State where
  by_peer : List (String × List (String × ChannelState))
deriving DecidableEq, Repr

/-- `State::new`. -/
def State.new : State := ⟨[]⟩

/-- `State::is_empty`. -/
def State.is_empty (s : State) : Bool := s.by_peer.isEmpty

/-- `State::has_pending_channels`. -/
def State.has_pending_channels (s : State) : Bool :=
  s.by_peer.any (fun pv => pv.2.any (fun cv => cv.2 = ChannelState.Pending))

/-- `State::get_all_channel_ids` (the underlying element list of the hash set). -/
def State.get_all_channel_ids (s : State) : List String :=
  s.by_peer.flatMap (fun pv => pv.2.map Prod.fst)

/-- `State::get_channel_state`. -/
def State.get_channel_state (s : State) (peer chan : String) : Option ChannelState :=
  (listGet s.by_peer peer).bind (fun inner => listGet inner chan)

/-- `State::set_channel_state` (`entry().or_insert_with(HashMap::new).insert`). -/
def State.set_channel_state (s : State) (peer chan : String) (st : ChannelState) : State :=
  match listGet s.by_peer peer with
  | some inner => ⟨listSet s.by_peer peer (listSet inner chan st)⟩
  | none => ⟨s.by_peer ++ [(peer, [(chan, st)])]⟩

/-- Equality of the sets of elements underlying two lists; models `HashSet` equality. -/
def setEq (a b : List String) : Bool := a.all b.contains && b.all a.contains

/-! ## Static channel backup data (`src/scb.rs`) -/

/-- `ChannelBackup` from `scb.rs`. -/
structure ChannelBackup where
  channel_id : String
  peer_id : String
  peer_socket_address : String
deriving DecidableEq, Repr

/-- `EncodedChannelMonitorBackup` from `scb.rs` (the value is an opaque byte blob). -/
structure EncodedChannelMonitorBackup where
  key : String
  value : List Nat
deriving DecidableEq, Repr

/-- `StaticChannelBackup` from `scb.rs`. -/
structure StaticChannelBackup where
  channels : List ChannelBackup
  monitors : List EncodedChannelMonitorBackup
deriving DecidableEq, Repr

instance {ε α : Type} [DecidableEq ε] [DecidableEq α] : DecidableEq (Except ε α) := fun a b =>
  match a, b with
  | Except.ok x, Except.ok y =>
      if h : x = y then isTrue (by rw [h]) else isFalse (by simp [h])
  | Except.error x, Except.error y =>
      if h : x = y then isTrue (by rw [h]) else isFalse (by simp [h])
  | Except.ok _, Except.error _ => isFalse (by simp)
  | Except.error _, Except.ok _ => isFalse (by simp)

/-- `StaticChannelBackup::channel_ids` (element list of the hash set). -/
def StaticChannelBackup.channel_ids (scb : StaticChannelBackup) : List String :=
  scb.channels.map (fun c => c.channel_id)

/-! ## Basic lemmas about the state map -/

theorem listGet_listSet {β : Type} (l : List (String × β)) (k k' : String) (v : β) :
    listGet (listSet l k v) k' = if k' = k then some v else listGet l k' := by
  induction l with
  | nil =>
      rcases eq_or_ne k' k with h | h
      · subst h; simp [listSet, listGet]
      · simp [listSet, listGet, h, Ne.symm h]
  | cons hd tl ih =>
      obtain ⟨kh, vh⟩ := hd
      by_cases hk : kh = k
      · subst hk
        rcases eq_or_ne k' kh with h | h
        · subst h; simp [listSet, listGet]
        · simp [listSet, listGet, h, Ne.symm h]
      · rcases eq_or_ne k' kh with h | h
        · subst h
          simp [listSet, listGet, hk, Ne.symm hk]
        · simp [listSet, listGet, hk, h, Ne.symm h, ih]

theorem listGet_append {β : Type} (l₁ l₂ : List (String × β)) (k : String) :
    listGet (l₁ ++ l₂) k = ((listGet l₁ k).or (listGet l₂ k)) := by
  induction l₁ with
  | nil => simp [listGet]
  | cons hd tl ih =>
      obtain ⟨kh, vh⟩ := hd
      by_cases h : kh = k <;> simp [listGet, h, ih]

/-- What `get_channel_state` sees after a `set_channel_state`. -/
theorem State.get_set (s : State) (p c p' c' : String) (v : ChannelState) :
    (s.set_channel_state p c v).get_channel_state p' c'
      = if p' = p ∧ c' = c then some v else s.get_channel_state p' c' := by
  unfold State.set_channel_state
  cases hpeer : listGet s.by_peer p with
  | some inner =>
      by_cases hp : p' = p
      · subst hp
        rcases eq_or_ne c' c with hc | hc
        · subst hc; simp [State.get_channel_state, listGet_listSet, hpeer]
        · simp [State.get_channel_state, listGet_listSet, hpeer, hc, Ne.symm hc]
      · simp [State.get_channel_state, listGet_listSet, hp]
  | none =>
      by_cases hp : p' = p
      · subst hp
        rcases eq_or_ne c' c with hc | hc
        · subst hc; simp [State.get_channel_state, listGet_append, hpeer, listGet]
        · simp [State.get_channel_state, listGet_append, hpeer, listGet, hc, Ne.symm hc]
      · simp [State.get_channel_state, listGet_append, listGet, hp, Ne.symm hp]

/-- An empty state records no channel at all. -/
theorem State.get_of_is_empty (s : State) (h : s.is_empty = true) (p c : String) :
    s.get_channel_state p c = none := by
  unfold State.is_empty at h
  rw [List.isEmpty_iff] at h
  simp [State.get_channel_state, h, listGet]

/-! ## The `run` function of `src/main.rs`

`run` is modelled from the point where the recovery state and the backup have
been loaded.  External outcomes are oracles: `pkOk` says whether a peer-id
string parses as a public key, `addrOk` whether a socket-address string
parses, and `connectOk i` gives the outcome of the `node.connect` call made
while processing the `i`-th backup channel entry.  The interactive reset
prompt is outside the model (the operator resumes), as are the node
builder/start steps, which the model records only through the
`restoreCalled` flag. -/

/-- Errors `run` can return in the modelled portion. -/
inductive RunError
  | mismatch
  | badPeerId (peer : String)
  | badPeerAddress (addr : String)
deriving DecidableEq, Repr

/-- Outcome of the peer-connection loop (`main.rs` lines 284-316). -/
structure ConnectOutcome where
  attempts : List String
  connected : List String
  failed : List String
  err : Option RunError
deriving DecidableEq, Repr

/-- `HashSet::insert` on the element list of a set. -/
def insertUniq (l : List String) (x : String) : List String :=
  if l.contains x then l else l ++ [x]

/-- The peer-connection loop of `run`: skip peers that are already connected,
parse the peer id and address (fatal on failure via `?`), attempt the
connection, and record success or failure.  `i` is the index of the current
backup entry; `att`, `conn` and `fail` accumulate the `node.connect` calls
made, the `connected_peers` set and the `failed_peers` set. -/
def connectPhase (pkOk addrOk : String → Bool) (connectOk : Nat → Bool) :
    List ChannelBackup → Nat → List String → List String → List String → ConnectOutcome
  | [], _, att, conn, fail => ⟨att, conn, fail, none⟩
  | ch :: rest, i, att, conn, fail =>
      if conn.contains ch.peer_id then
        connectPhase pkOk addrOk connectOk rest (i + 1) att conn fail
      else if pkOk ch.peer_id = false then
        ⟨att, conn, fail, some (RunError.badPeerId ch.peer_id)⟩
      else if addrOk ch.peer_socket_address = false then
        ⟨att, conn, fail, some (RunError.badPeerAddress ch.peer_socket_address)⟩
      else if connectOk i then
        connectPhase pkOk addrOk connectOk rest (i + 1) (att ++ [ch.peer_id])
          (insertUniq conn ch.peer_id) fail
      else
        connectPhase pkOk addrOk connectOk rest (i + 1) (att ++ [ch.peer_id])
          conn (insertUniq fail ch.peer_id)

/-- A single recovery-state mutation performed by `run`: either the first-run
initialization of one backup channel to `Pending` (lines 209-211), or the
post-connect transition check for one backup channel (lines 326-339). -/
inductive RunStep
  | init (ch : ChannelBackup)
  | fc (ch : ChannelBackup)
deriving DecidableEq, Repr

/-- Apply one `RunStep` to the state, given the set of connected peers. -/
def applyStep (connected : List String) (s : State) : RunStep → State
  | RunStep.init ch =>
      s.set_channel_state ch.peer_id ch.channel_id ChannelState.Pending
  | RunStep.fc ch =>
      if connected.contains ch.peer_id
          ∧ (s.get_channel_state ch.peer_id ch.channel_id).getD ChannelState.Pending
              = ChannelState.Pending then
        s.set_channel_state ch.peer_id ch.channel_id ChannelState.ForceCloseInitiated
      else s

/-- The observable effects of one `run` invocation. -/
structure RunOutcome where
  /-- The values of the recovery state over time, starting with the loaded
  state, one entry per mutation. -/
  trace : List State
  /-- The snapshots written to the state file, in order. -/
  saves : List State
  /-- Whether `restore_encoded_channel_monitors` was invoked. -/
  restoreCalled : Bool
  /-- Whether `force_close_all_channels_without_broadcasting_txn` was invoked. -/
  forceCloseCalled : Bool
  /-- Peer ids passed to `node.connect`, in call order. -/
  attempts : List String
  /-- The final `connected_peers` set. -/
  connected : List String
  /-- The final `failed_peers` set. -/
  failed : List String
  /-- The value `run` returns. -/
  result : Except RunError Unit
deriving Repr

/-- The portion of `run` after the state/backup consistency handling:
wallet-sync (external), the peer-connection loop, the conditional force-close
call, the `Pending -> ForceCloseInitiated` transitions, and the final save.
`s1` is the state at this point and `firstRun`/`saves0` record what the
earlier branch did. -/
def runAfterInit (pkOk addrOk : String → Bool) (connectOk : Nat → Bool)
    (s0 : State) (scb : StaticChannelBackup) (s1 : State) (firstRun : Bool)
    (saves0 : List State) : RunOutcome :=
  let co := connectPhase pkOk addrOk connectOk scb.channels 0 [] [] []
  let initSteps := if firstRun then scb.channels.map RunStep.init else []
  match co.err with
  | some e =>
      ⟨List.scanl (applyStep co.connected) s0 initSteps,
        saves0, firstRun, false, co.attempts, co.connected, co.failed,
        Except.error e⟩
  | none =>
      let steps := initSteps ++ scb.channels.map RunStep.fc
      let s2 := List.foldl (applyStep co.connected) s0 steps
      ⟨List.scanl (applyStep co.connected) s0 steps,
        saves0 ++ [s2], firstRun, s1.has_pending_channels, co.attempts,
        co.connected, co.failed, Except.ok ()⟩

/-- The modelled `run` (`main.rs` lines 170-344): first-run initialization
and save, or the mismatch check on resume, followed by `runAfterInit`. -/
def run (pkOk addrOk : String → Bool) (connectOk : Nat → Bool)
    (s0 : State) (scb : StaticChannelBackup) : RunOutcome :=
  if s0.is_empty then
    let s1 := List.foldl (applyStep []) s0 (scb.channels.map RunStep.init)
    runAfterInit pkOk addrOk connectOk s0 scb s1 true [s1]
  else if setEq s0.get_all_channel_ids scb.channel_ids then
    runAfterInit pkOk addrOk connectOk s0 scb s0 false []
  else
    ⟨[s0], [], false, false, [], [], [], Except.error RunError.mismatch⟩

/-! ## Monotonicity of per-channel states along the trace of `run` -/

/-- Relation between two state snapshots: every channel recorded as
`ForceCloseInitiated` in the first is still so recorded in the second. -/
def FciPreserved (s s' : State) : Prop :=
  ∀ p c, s.get_channel_state p c = some ChannelState.ForceCloseInitiated →
    s'.get_channel_state p c = some ChannelState.ForceCloseInitiated

/-- No channel of `s` is recorded as `ForceCloseInitiated`. -/
def NoFci (s : State) : Prop :=
  ∀ p c, s.get_channel_state p c ≠ some ChannelState.ForceCloseInitiated

theorem fciPreserved_refl (s : State) : FciPreserved s s := fun _ _ h => h

theorem fciPreserved_trans {s t u : State} (h₁ : FciPreserved s t)
    (h₂ : FciPreserved t u) : FciPreserved s u :=
  fun p c h => h₂ p c (h₁ p c h)

theorem noFci_of_empty (s : State) (h : s.is_empty = true) : NoFci s := by
  intro p c hc
  rw [State.get_of_is_empty s h p c] at hc
  exact Option.noConfusion hc

/-- An initialization step writes only `Pending`, so it cannot create a
`ForceCloseInitiated` entry. -/
theorem noFci_applyStep_init (conn : List String) (s : State) (ch : ChannelBackup)
    (h : NoFci s) : NoFci (applyStep conn s (RunStep.init ch)) := by
  intro p c hc
  rw [applyStep, State.get_set] at hc
  by_cases hk : p = ch.peer_id ∧ c = ch.channel_id
  · rw [if_pos hk] at hc
    exact ChannelState.noConfusion (Option.some.inj hc)
  · rw [if_neg hk] at hc
    exact h p c hc

/-- A post-connect transition step never erases `ForceCloseInitiated`: it
writes only `ForceCloseInitiated`, and only to channels currently seen as
`Pending`. -/
theorem fciPreserved_applyStep_fc (conn : List String) (s : State)
    (ch : ChannelBackup) : FciPreserved s (applyStep conn s (RunStep.fc ch)) := by
  intro p c hc
  rw [applyStep]
  by_cases hcond : conn.contains ch.peer_id
      ∧ (s.get_channel_state ch.peer_id ch.channel_id).getD ChannelState.Pending
          = ChannelState.Pending
  · rw [if_pos hcond, State.get_set]
    by_cases hk : p = ch.peer_id ∧ c = ch.channel_id
    · rw [if_pos hk]
    · rw [if_neg hk]; exact hc
  · rw [if_neg hcond]; exact hc

theorem head?_scanl {α β : Type} (f : β → α → β) (b : β) (l : List α) :
    (List.scanl f b l).head? = some b := by
  cases l <;> simp [List.scanl_nil, List.scanl_cons]

/-- The trace of force-close transition steps is a `FciPreserved`-chain. -/
theorem chain_scanl_fc (conn : List String) :
    ∀ (chans : List ChannelBackup) (s : State),
      List.Chain' FciPreserved
        (List.scanl (applyStep conn) s (chans.map RunStep.fc))
  | [], s => by simp [List.scanl_nil]
  | ch :: rest, s => by
      rw [List.map_cons, List.scanl_cons]
      rw [List.singleton_append, List.chain'_cons']
      refine ⟨?_, chain_scanl_fc conn rest _⟩
      intro y hy
      rw [head?_scanl] at hy
      cases hy
      exact fciPreserved_applyStep_fc conn s ch

/-- The full trace of `run`'s mutation steps (first-run initializations
followed by force-close transitions) is a `FciPreserved`-chain, provided the
starting state has no `ForceCloseInitiated` entry. -/
theorem chain_scanl_init_fc (conn : List String) :
    ∀ (chans1 chans2 : List ChannelBackup) (s : State), NoFci s →
      List.Chain' FciPreserved
        (List.scanl (applyStep conn) s
          (chans1.map RunStep.init ++ chans2.map RunStep.fc))
  | [], chans2, s, _ => by
      rw [List.map_nil, List.nil_append]; exact chain_scanl_fc conn chans2 s
  | ch :: rest, chans2, s, h => by
      rw [List.map_cons, List.cons_append, List.scanl_cons]
      rw [List.singleton_append, List.chain'_cons']
      refine ⟨?_, chain_scanl_init_fc conn rest chans2 _
        (noFci_applyStep_init conn s ch h)⟩
      intro y hy p c hc
      exact absurd hc (h p c)

/-- Transitive closure of a `FciPreserved`-chain along index order. -/
theorem chain_fciPreserved_le {l : List State} (hc : List.Chain' FciPreserved l) :
    ∀ i j, i ≤ j → ∀ a b, l.get? i = some a → l.get? j = some b →
      FciPreserved a b := by
  intro i j hij
  induction j, hij using Nat.le_induction with
  | base =>
      intro a b ha hb
      rw [ha] at hb
      cases hb
      exact fciPreserved_refl a
  | succ n hn ih =>
      intro a b ha hb
      have hlen : n + 1 < l.length := (List.get?_eq_some.mp hb).1
      have hmid : ∃ m, l.get? n = some m := by
        have : n < l.length := by omega
        exact ⟨l.get ⟨n, this⟩, List.get?_eq_get this⟩
      obtain ⟨m, hm⟩ := hmid
      have step : FciPreserved m b := by
        have := List.chain'_iff_get.mp hc n (by omega)
        have hgm : l.get ⟨n, by omega⟩ = m := by
          have := List.get?_eq_get (show n < l.length by omega)
          rw [this] at hm
          exact Option.some.inj hm
        have hgb : l.get ⟨n + 1, hlen⟩ = b := by
          have := List.get?_eq_get hlen
          rw [this] at hb
          exact Option.some.inj hb
        rwa [hgm, hgb] at this
      exact fciPreserved_trans (ih a m ha hm) step

/-- The whole trace of `run` is a `FciPreserved`-chain, whichever branch is
taken. -/
theorem run_trace_chain (pkOk addrOk : String → Bool) (connectOk : Nat → Bool)
    (s0 : State) (scb : StaticChannelBackup) :
    List.Chain' FciPreserved (run pkOk addrOk connectOk s0 scb).trace := by
  unfold run runAfterInit
  by_cases h0 : s0.is_empty
  · have hnofci : NoFci s0 := noFci_of_empty s0 h0
    rw [if_pos h0]
    cases herr : (connectPhase pkOk addrOk connectOk scb.channels 0 [] [] []).err with
    | some e =>
        simp only [herr, if_pos]
        have := chain_scanl_init_fc
          (connectPhase pkOk addrOk connectOk scb.channels 0 [] [] []).connected
          scb.channels [] s0 hnofci
        simpa using this
    | none =>
        simp only [herr]
        exact chain_scanl_init_fc _ scb.channels scb.channels s0 hnofci
  · rw [if_neg h0]
    by_cases hset : setEq s0.get_all_channel_ids scb.channel_ids
    · rw [if_pos hset]
      cases herr : (connectPhase pkOk addrOk connectOk scb.channels 0 [] [] []).err with
      | some e =>
          simp only [herr, if_neg, List.map_nil]
          simp [List.scanl_nil]
      | none =>
          simp only [herr, if_neg, List.map_nil, List.nil_append]
          exact chain_scanl_fc _ scb.channels s0
    · rw [if_neg hset]
      simp

/-- C1: For every channel entry, over the whole sequence of state mutations
performed by `run` (first-run initialization, post-connect transitions, and
saves), the per-channel state sequence is a subsequence of
`[Pending, ForceCloseInitiated]`: a channel recorded as `ForceCloseInitiated`
at some point of the trace is never subsequently set back to `Pending`. -/
theorem run_state_monotonic (pkOk addrOk : String → Bool) (connectOk : Nat → Bool)
    (s0 : State) (scb : StaticChannelBackup) (p c : String) (i j : Nat)
    (si sj : State) (hij : i ≤ j)
    (hi : (run pkOk addrOk connectOk s0 scb).trace.get? i = some si)
    (hj : (run pkOk addrOk connectOk s0 scb).trace.get? j = some sj)
    (hfci : si.get_channel_state p c = some ChannelState.ForceCloseInitiated) :
    sj.get_channel_state p c = some ChannelState.ForceCloseInitiated :=
  chain_fciPreserved_le (run_trace_chain pkOk addrOk connectOk s0 scb)
    i j hij si sj hi hj p c hfci

/-- Witness for C1 on a one-channel backup with a reachable peer: the trace
reaches `ForceCloseInitiated` at index 2 and stays there. -/
theorem run_state_monotonic_witness :
    (run (fun _ => true) (fun _ => true) (fun _ => true) State.new
        ⟨[⟨"c1", "p1", "a1"⟩], []⟩).trace.get? 2
      = some ⟨[("p1", [("c1", ChannelState.ForceCloseInitiated)])]⟩
    ∧ (State.mk [("p1", [("c1", ChannelState.ForceCloseInitiated)])]).get_channel_state "p1" "c1"
      = some ChannelState.ForceCloseInitiated :=
  ⟨by decide,
    run_state_monotonic (fun _ => true) (fun _ => true) (fun _ => true) State.new
      ⟨[⟨"c1", "p1", "a1"⟩], []⟩ "p1" "c1" 2 2
      ⟨[("p1", [("c1", ChannelState.ForceCloseInitiated)])]⟩
      ⟨[("p1", [("c1", ChannelState.ForceCloseInitiated)])]⟩
      (le_refl 2) (by decide) (by decide) (by decide)⟩

/-- C2: For every non-empty persisted recovery state and every loaded backup,
if the set of channel ids in the state differs from the set of channel ids in
the backup, `run` returns the mismatch error and never writes the state
file on that path. -/
theorem run_mismatch_error_no_save (pkOk addrOk : String → Bool)
    (connectOk : Nat → Bool) (s0 : State) (scb : StaticChannelBackup)
    (h1 : s0.is_empty = false)
    (h2 : setEq s0.get_all_channel_ids scb.channel_ids = false) :
    (run pkOk addrOk connectOk s0 scb).result = Except.error RunError.mismatch
    ∧ (run pkOk addrOk connectOk s0 scb).saves = [] := by
  unfold run
  rw [if_neg (by simp [h1]), if_neg (by simp [h2])]
  exact ⟨rfl, rfl⟩

/-- Witness for C2: state holding channel `A` against a backup holding
channel `C`. -/
theorem run_mismatch_error_no_save_witness :
    (State.mk [("p", [("A", ChannelState.Pending)])]).is_empty = false
    ∧ setEq (State.mk [("p", [("A", ChannelState.Pending)])]).get_all_channel_ids
        (StaticChannelBackup.mk [⟨"C", "p", "x"⟩] []).channel_ids = false
    ∧ ((run (fun _ => true) (fun _ => true) (fun _ => true)
          ⟨[("p", [("A", ChannelState.Pending)])]⟩
          ⟨[⟨"C", "p", "x"⟩], []⟩).result = Except.error RunError.mismatch
        ∧ (run (fun _ => true) (fun _ => true) (fun _ => true)
            ⟨[("p", [("A", ChannelState.Pending)])]⟩
            ⟨[⟨"C", "p", "x"⟩], []⟩).saves = []) :=
  ⟨by decide, by decide,
    run_mismatch_error_no_save (fun _ => true) (fun _ => true) (fun _ => true)
      ⟨[("p", [("A", ChannelState.Pending)])]⟩ ⟨[⟨"C", "p", "x"⟩], []⟩
      (by decide) (by decide)⟩

/-- C10: A backup with an empty channel sequence initializes no state
entries: the state stays empty, every state-file write on that run writes the
empty state, and any subsequent run that loads one of those snapshots is
classified as a first run again, so `restore_encoded_channel_monitors` is
invoked on every such run, not only once. -/
theorem empty_backup_always_first_run (pk1 ad1 : String → Bool) (cn1 : Nat → Bool)
    (pk2 ad2 : String → Bool) (cn2 : Nat → Bool) (scb : StaticChannelBackup)
    (h : scb.channels = []) :
    (run pk1 ad1 cn1 State.new scb).restoreCalled = true
    ∧ (run pk1 ad1 cn1 State.new scb).saves = [State.new, State.new]
    ∧ (∀ s ∈ (run pk1 ad1 cn1 State.new scb).saves, s.is_empty = true)
    ∧ (∀ s ∈ (run pk1 ad1 cn1 State.new scb).saves,
        (run pk2 ad2 cn2 s scb).restoreCalled = true) := by
  have hrun : ∀ (pk ad : String → Bool) (cn : Nat → Bool),
      run pk ad cn State.new scb
        = ⟨[State.new], [State.new, State.new], true, false, [], [], [],
            Except.ok ()⟩ := by
    intro pk ad cn
    rw [run]
    have hempty : State.new.is_empty = true := by decide
    rw [if_pos hempty]
    rw [runAfterInit, h]
    simp [connectPhase, State.has_pending_channels, State.new]
  refine ⟨by rw [hrun], by rw [hrun], ?_, ?_⟩
  · rw [hrun]
    intro s hs
    have hsnew : s = State.new := by
      rcases List.mem_cons.mp hs with h' | h'
      · exact h'
      · simpa using h'
    rw [hsnew]; decide
  · rw [hrun]
    intro s hs
    have hsnew : s = State.new := by
      rcases List.mem_cons.mp hs with h' | h'
      · exact h'
      · simpa using h'
    rw [hsnew, hrun pk2 ad2 cn2]

/-- Witness for C10: a channel-less backup that still carries a monitor blob. -/
theorem empty_backup_always_first_run_witness :
    (StaticChannelBackup.mk [] [⟨"monitor-0", [1, 2, 3]⟩]).channels = []
    ∧ ((run (fun _ => true) (fun _ => true) (fun _ => true) State.new
          ⟨[], [⟨"monitor-0", [1, 2, 3]⟩]⟩).restoreCalled = true
        ∧ (run (fun _ => true) (fun _ => true) (fun _ => true) State.new
            ⟨[], [⟨"monitor-0", [1, 2, 3]⟩]⟩).saves = [State.new, State.new]
        ∧ (∀ s ∈ (run (fun _ => true) (fun _ => true) (fun _ => true) State.new
            ⟨[], [⟨"monitor-0", [1, 2, 3]⟩]⟩).saves, s.is_empty = true)
        ∧ (∀ s ∈ (run (fun _ => true) (fun _ => true) (fun _ => true) State.new
            ⟨[], [⟨"monitor-0", [1, 2, 3]⟩]⟩).saves,
            (run (fun _ => false) (fun _ => false) (fun _ => false) s
              ⟨[], [⟨"monitor-0", [1, 2, 3]⟩]⟩).restoreCalled = true)) :=
  ⟨rfl,
    empty_backup_always_first_run (fun _ => true) (fun _ => true) (fun _ => true)
      (fun _ => false) (fun _ => false) (fun _ => false)
      ⟨[], [⟨"monitor-0", [1, 2, 3]⟩]⟩ rfl⟩

/-! ## The peer-connection loop: deduplication and error discipline -/

/-- Deduplication keeping first occurrences, relative to a set of already-seen
elements. -/
def dedupFirstAux (seen : List String) : List String → List String
  | [] => []
  | x :: xs =>
      if seen.contains x then dedupFirstAux seen xs
      else x :: dedupFirstAux (seen ++ [x]) xs

theorem foldl_insertUniq (l : List String) :
    ∀ acc, List.foldl insertUniq acc l = acc ++ dedupFirstAux acc l := by
  induction l with
  | nil => intro acc; simp [dedupFirstAux]
  | cons x xs ih =>
      intro acc
      by_cases hx : acc.contains x
      · have hx' : x ∈ acc := by simpa using hx
        simp [dedupFirstAux, insertUniq, hx, hx', ih]
      · have hx' : x ∉ acc := by simpa using hx
        simp [dedupFirstAux, insertUniq, hx, hx', ih]

/-- When every entry parses, the connection loop never returns an error: a
failed connection is recorded but does not abort the loop. -/
theorem connectPhase_err_none (pkOk addrOk : String → Bool) (connectOk : Nat → Bool) :
    ∀ (chans : List ChannelBackup) (i : Nat) (att conn fail : List String),
      (∀ ch ∈ chans, pkOk ch.peer_id = true ∧ addrOk ch.peer_socket_address = true) →
      (connectPhase pkOk addrOk connectOk chans i att conn fail).err = none := by
  intro chans
  induction chans with
  | nil => intro i att conn fail _; rfl
  | cons ch rest ih =>
      intro i att conn fail h
      have hch := h ch (List.mem_cons_self ch rest)
      have hrest : ∀ c ∈ rest, pkOk c.peer_id = true ∧ addrOk c.peer_socket_address = true :=
        fun c hc => h c (List.mem_cons_of_mem ch hc)
      rw [connectPhase]
      by_cases hconn : conn.contains ch.peer_id
      · rw [if_pos hconn]; exact ih _ _ _ _ hrest
      · rw [if_neg hconn, if_neg (by simp [hch.1]), if_neg (by simp [hch.2])]
        by_cases hcn : connectOk i
        · rw [if_pos hcn]; exact ih _ _ _ _ hrest
        · rw [if_neg hcn]; exact ih _ _ _ _ hrest

/-- When every connection succeeds, each distinct peer not yet connected is
attempted exactly once, in listed order. -/
theorem connectPhase_all_success (pkOk addrOk : String → Bool) (connectOk : Nat → Bool)
    (hcn : ∀ n, connectOk n = true) :
    ∀ (chans : List ChannelBackup) (i : Nat) (att conn fail : List String),
      (∀ ch ∈ chans, pkOk ch.peer_id = true ∧ addrOk ch.peer_socket_address = true) →
      (connectPhase pkOk addrOk connectOk chans i att conn fail).attempts
        = att ++ dedupFirstAux conn (chans.map (fun ch => ch.peer_id)) := by
  intro chans
  induction chans with
  | nil => intro i att conn fail _; simp [connectPhase, dedupFirstAux]
  | cons ch rest ih =>
      intro i att conn fail h
      have hch := h ch (List.mem_cons_self ch rest)
      have hrest : ∀ c ∈ rest, pkOk c.peer_id = true ∧ addrOk c.peer_socket_address = true :=
        fun c hc => h c (List.mem_cons_of_mem ch hc)
      rw [connectPhase]
      by_cases hconn : conn.contains ch.peer_id
      · have hconn' : ch.peer_id ∈ conn := by simpa using hconn
        rw [if_pos hconn]
        rw [ih _ _ _ _ hrest]
        simp [dedupFirstAux, hconn']
      · have hconn' : ch.peer_id ∉ conn := by simpa using hconn
        have hc' : conn.contains ch.peer_id = false := by simpa using hconn
        rw [if_neg hconn, if_neg (by simp [hch.1]), if_neg (by simp [hch.2]),
          if_pos (hcn i)]
        rw [ih _ _ _ _ hrest]
        rw [insertUniq, if_neg (by simpa using hconn')]
        simp [dedupFirstAux, hc', hconn']

/-- When every connection fails, no deduplication happens: every entry whose
peer is outside the initial connected set is attempted, and the distinct
failed peers are recorded. -/
theorem connectPhase_all_failure (pkOk addrOk : String → Bool) (connectOk : Nat → Bool)
    (hcn : ∀ n, connectOk n = false) :
    ∀ (chans : List ChannelBackup) (i : Nat) (att conn fail : List String),
      (∀ ch ∈ chans, pkOk ch.peer_id = true ∧ addrOk ch.peer_socket_address = true) →
      connectPhase pkOk addrOk connectOk chans i att conn fail
        = ⟨att ++ (chans.map (fun ch => ch.peer_id)).filter
              (fun p => conn.contains p = false),
            conn,
            List.foldl insertUniq fail
              ((chans.map (fun ch => ch.peer_id)).filter
                (fun p => conn.contains p = false)),
            none⟩ := by
  intro chans
  induction chans with
  | nil => intro i att conn fail _; simp [connectPhase]
  | cons ch rest ih =>
      intro i att conn fail h
      have hch := h ch (List.mem_cons_self ch rest)
      have hrest : ∀ c ∈ rest, pkOk c.peer_id = true ∧ addrOk c.peer_socket_address = true :=
        fun c hc => h c (List.mem_cons_of_mem ch hc)
      rw [connectPhase]
      by_cases hconn : conn.contains ch.peer_id
      · have hconn' : ch.peer_id ∈ conn := by simpa using hconn
        rw [if_pos hconn]
        rw [ih _ _ _ _ hrest]
        simp [List.filter_cons, hconn, hconn']
      · have hc' : conn.contains ch.peer_id = false := by
          simpa using hconn
        have hconn' : ch.peer_id ∉ conn := by simpa using hconn
        rw [if_neg hconn, if_neg (by simp [hch.1]), if_neg (by simp [hch.2]),
          if_neg (by simp [hcn i])]
        rw [ih _ _ _ _ hrest]
        simp [List.filter_cons, hc', hconn', insertUniq]

/-- C6, counterexample: deduplication only tracks successful connections, so
when the first connection attempt to peer `A` fails, the second backup entry
for `A` triggers another attempt — `A` is attempted twice, not exactly
once. -/
theorem connect_dedup_counterexample :
    ((([⟨"c1", "A", "x"⟩, ⟨"c2", "A", "y"⟩] : List ChannelBackup).map
        (fun ch => ch.peer_id)).count "A" = 2)
    ∧ (connectPhase (fun _ => true) (fun _ => true) (fun _ => false)
        [⟨"c1", "A", "x"⟩, ⟨"c2", "A", "y"⟩] 0 [] [] []).attempts = ["A", "A"]
    ∧ ¬ (connectPhase (fun _ => true) (fun _ => true) (fun _ => false)
        [⟨"c1", "A", "x"⟩, ⟨"c2", "A", "y"⟩] 0 [] [] []).attempts.count "A" = 1 := by
  decide

/-- C6, amended: during the peer-connection phase, when every entry parses, a
connection failure never aborts the run (the loop completes without error);
a peer is skipped only once a connection to it has succeeded, so with
all-successful connections each distinct peer is attempted exactly once in
listed order, while with all-failing connections every entry is attempted
(no deduplication across failures) and the distinct failed peers are
recorded. -/
theorem connect_dedup_on_success_nonfatal (pkOk addrOk : String → Bool)
    (connectOk : Nat → Bool) (chans : List ChannelBackup)
    (h : ∀ ch ∈ chans, pkOk ch.peer_id = true ∧ addrOk ch.peer_socket_address = true) :
    (connectPhase pkOk addrOk connectOk chans 0 [] [] []).err = none
    ∧ ((∀ n, connectOk n = true) →
        (connectPhase pkOk addrOk connectOk chans 0 [] [] []).attempts
          = dedupFirstAux [] (chans.map (fun ch => ch.peer_id)))
    ∧ ((∀ n, connectOk n = false) →
        (connectPhase pkOk addrOk connectOk chans 0 [] [] []).attempts
            = chans.map (fun ch => ch.peer_id)
          ∧ (connectPhase pkOk addrOk connectOk chans 0 [] [] []).failed
            = dedupFirstAux [] (chans.map (fun ch => ch.peer_id))) := by
  refine ⟨connectPhase_err_none pkOk addrOk connectOk chans 0 [] [] [] h, ?_, ?_⟩
  · intro hcn
    rw [connectPhase_all_success pkOk addrOk connectOk hcn chans 0 [] [] [] h]
    simp
  · intro hcn
    rw [connectPhase_all_failure pkOk addrOk connectOk hcn chans 0 [] [] [] h]
    constructor
    · simp
    · rw [foldl_insertUniq]
      simp

/-- Witness for the amended C6 on a two-entry backup naming the same peer:
with all-successful connections the peer is attempted once, and with
all-failing connections the loop still completes without error and attempts
every entry. -/
theorem connect_dedup_on_success_nonfatal_witness :
    (connectPhase (fun _ => true) (fun _ => true) (fun _ => true)
        [⟨"c1", "A", "x"⟩, ⟨"c2", "A", "y"⟩] 0 [] [] []).attempts
      = dedupFirstAux []
          (([⟨"c1", "A", "x"⟩, ⟨"c2", "A", "y"⟩] : List ChannelBackup).map
            (fun ch => ch.peer_id))
    ∧ (connectPhase (fun _ => true) (fun _ => true) (fun _ => false)
        [⟨"c1", "A", "x"⟩, ⟨"c2", "A", "y"⟩] 0 [] [] []).err = none
    ∧ (connectPhase (fun _ => true) (fun _ => true) (fun _ => false)
        [⟨"c1", "A", "x"⟩, ⟨"c2", "A", "y"⟩] 0 [] [] []).attempts
      = ([⟨"c1", "A", "x"⟩, ⟨"c2", "A", "y"⟩] : List ChannelBackup).map
          (fun ch => ch.peer_id) :=
  ⟨(connect_dedup_on_success_nonfatal (fun _ => true) (fun _ => true) (fun _ => true)
      [⟨"c1", "A", "x"⟩, ⟨"c2", "A", "y"⟩] (by decide)).2.1 (fun _ => rfl),
    (connect_dedup_on_success_nonfatal (fun _ => true) (fun _ => true) (fun _ => false)
      [⟨"c1", "A", "x"⟩, ⟨"c2", "A", "y"⟩] (by decide)).1,
    ((connect_dedup_on_success_nonfatal (fun _ => true) (fun _ => true) (fun _ => false)
      [⟨"c1", "A", "x"⟩, ⟨"c2", "A", "y"⟩] (by decide)).2.2 (fun _ => rfl)).1⟩

/-- C9: a backup entry whose peer is not already connected and whose peer id
fails public-key parsing, or whose socket address fails parsing, makes the
connection loop stop at once with an error that `run` returns (fatal), while
a network connection failure is non-fatal: when every entry parses, the loop
always finishes without error. -/
theorem parse_failure_fatal (pkOk addrOk : String → Bool) (connectOk : Nat → Bool) :
    (∀ (ch : ChannelBackup) (rest : List ChannelBackup) (i : Nat)
        (att conn fail : List String),
        conn.contains ch.peer_id = false → pkOk ch.peer_id = false →
        connectPhase pkOk addrOk connectOk (ch :: rest) i att conn fail
          = ⟨att, conn, fail, some (RunError.badPeerId ch.peer_id)⟩)
    ∧ (∀ (ch : ChannelBackup) (rest : List ChannelBackup) (i : Nat)
        (att conn fail : List String),
        conn.contains ch.peer_id = false → pkOk ch.peer_id = true →
        addrOk ch.peer_socket_address = false →
        connectPhase pkOk addrOk connectOk (ch :: rest) i att conn fail
          = ⟨att, conn, fail, some (RunError.badPeerAddress ch.peer_socket_address)⟩)
    ∧ (∀ (s0 : State) (scb : StaticChannelBackup) (ch : ChannelBackup)
        (rest : List ChannelBackup),
        s0.is_empty = true → scb.channels = ch :: rest → pkOk ch.peer_id = false →
        (run pkOk addrOk connectOk s0 scb).result
          = Except.error (RunError.badPeerId ch.peer_id))
    ∧ (∀ (chans : List ChannelBackup) (i : Nat) (att conn fail : List String),
        (∀ ch ∈ chans, pkOk ch.peer_id = true ∧ addrOk ch.peer_socket_address = true) →
        (connectPhase pkOk addrOk connectOk chans i att conn fail).err = none) := by
  have hbadpk : ∀ (ch : ChannelBackup) (rest : List ChannelBackup) (i : Nat)
      (att conn fail : List String),
      conn.contains ch.peer_id = false → pkOk ch.peer_id = false →
      connectPhase pkOk addrOk connectOk (ch :: rest) i att conn fail
        = ⟨att, conn, fail, some (RunError.badPeerId ch.peer_id)⟩ := by
    intro ch rest i att conn fail hconn hpk
    rw [connectPhase, if_neg (by rw [hconn]; simp), if_pos hpk]
  refine ⟨hbadpk, ?_, ?_, ?_⟩
  · intro ch rest i att conn fail hconn hpk had
    rw [connectPhase, if_neg (by rw [hconn]; simp), if_neg (by simp [hpk]), if_pos had]
  · intro s0 scb ch rest hs0 hchans hpk
    rw [run, if_pos hs0, runAfterInit]
    rw [hchans, hbadpk ch rest 0 [] [] [] rfl hpk]
  · exact fun chans i att conn fail h =>
      connectPhase_err_none pkOk addrOk connectOk chans i att conn fail h

/-- Witness for C9: a backup whose single entry has an unparsable peer id. -/
theorem parse_failure_fatal_witness :
    (([] : List String).contains "badpeer" = false ∧ (fun _ => false) "badpeer" = false)
    ∧ State.new.is_empty = true
    ∧ (run (fun _ => false) (fun _ => true) (fun _ => true) State.new
        ⟨[⟨"c1", "badpeer", "x"⟩], []⟩).result
      = Except.error (RunError.badPeerId "badpeer") :=
  ⟨⟨rfl, rfl⟩, rfl,
    (parse_failure_fatal (fun _ => false) (fun _ => true) (fun _ => true)).2.2.1
      State.new ⟨[⟨"c1", "badpeer", "x"⟩], []⟩ ⟨"c1", "badpeer", "x"⟩ []
      rfl rfl rfl⟩

/-! ## The backup codec (`src/scb.rs`)

Errors are modelled structurally: an `anyhow` error is either a leaf (a
message or one of the opaque library failures) or a context frame wrapped
around an inner error. -/

/-- Structural model of the `anyhow` error values produced in `scb.rs`. -/
inductive ScbErr
  | message (s : String)
  | hexDecodeFailed
  | aeadFailed
  | utf8Invalid
  | jsonInvalid
  | ioFailed
  | ctx (c : String) (e : ScbErr)
deriving DecidableEq, Repr

/-- Whether `needle` occurs anywhere in the context chain of an error. -/
def occursIn (needle : ScbErr) : ScbErr → Bool
  | ScbErr.ctx c e => needle == ScbErr.ctx c e || occursIn needle e
  | e => needle == e

/-- The parse strategies `load_scb_guess_type` can attempt, in order. -/
inductive LoadAttempt
  | plaintext
  | encrypted
deriving DecidableEq, Repr

/-- `load_scb_guess_type` from `scb.rs`: try the plaintext loader, fall back
to the encrypted loader only on failure (`or_else` with a discarded error),
and wrap any final error with the fixed context string.  The oracles `plain`
and `enc` stand for the results of `load_scb` and `load_scb_encrypted` on the
given file; the returned list records which loaders ran, in order. -/
def load_scb_guess_type (plain enc : Except ScbErr StaticChannelBackup) :
    List LoadAttempt × Except ScbErr StaticChannelBackup :=
  match plain with
  | Except.ok scb => ([LoadAttempt.plaintext], Except.ok scb)
  | Except.error _ =>
      match enc with
      | Except.ok scb => ([LoadAttempt.plaintext, LoadAttempt.encrypted], Except.ok scb)
      | Except.error e =>
          ([LoadAttempt.plaintext, LoadAttempt.encrypted],
            Except.error (ScbErr.ctx "failed to load SCB" e))

/-- C4, counterexample: when both loaders fail, the error returned by
`load_scb_guess_type` is the encrypted-path error wrapped with the fixed
context string `"failed to load SCB"`; the original plaintext failure does
not occur anywhere in the returned error, so the error is not wrapped with
context of the plaintext failure. -/
theorem load_scb_error_counterexample :
    (load_scb_guess_type (Except.error (ScbErr.message "plaintext parse failed"))
        (Except.error (ScbErr.message "encrypted load failed"))).2
      = Except.error (ScbErr.ctx "failed to load SCB"
          (ScbErr.message "encrypted load failed"))
    ∧ occursIn (ScbErr.message "plaintext parse failed")
        (ScbErr.ctx "failed to load SCB" (ScbErr.message "encrypted load failed"))
      = false := by
  decide

/-- C4, amended: loading a backup attempts the plaintext parse first and the
encrypted parse only if the plaintext parse fails; when both fail, the
returned error is the encrypted-path error wrapped with the fixed context
`"failed to load SCB"`, and the original plaintext failure is discarded. -/
theorem load_scb_plaintext_first (plain enc : Except ScbErr StaticChannelBackup) :
    (∀ scb, plain = Except.ok scb →
        load_scb_guess_type plain enc = ([LoadAttempt.plaintext], Except.ok scb))
    ∧ (∀ e scb, plain = Except.error e → enc = Except.ok scb →
        load_scb_guess_type plain enc
          = ([LoadAttempt.plaintext, LoadAttempt.encrypted], Except.ok scb))
    ∧ (∀ e1 e2, plain = Except.error e1 → enc = Except.error e2 →
        load_scb_guess_type plain enc
          = ([LoadAttempt.plaintext, LoadAttempt.encrypted],
              Except.error (ScbErr.ctx "failed to load SCB" e2))) := by
  refine ⟨?_, ?_, ?_⟩
  · intro scb hp
    rw [hp, load_scb_guess_type]
  · intro e scb hp he
    rw [hp, he, load_scb_guess_type]
  · intro e1 e2 hp he
    rw [hp, he, load_scb_guess_type]

/-- Witness for the amended C4 on concrete loader outcomes. -/
theorem load_scb_plaintext_first_witness :
    load_scb_guess_type (Except.ok ⟨[], []⟩) (Except.error ScbErr.ioFailed)
      = ([LoadAttempt.plaintext], Except.ok ⟨[], []⟩)
    ∧ load_scb_guess_type (Except.error ScbErr.jsonInvalid) (Except.ok ⟨[], []⟩)
      = ([LoadAttempt.plaintext, LoadAttempt.encrypted], Except.ok ⟨[], []⟩)
    ∧ load_scb_guess_type (Except.error ScbErr.jsonInvalid)
        (Except.error ScbErr.aeadFailed)
      = ([LoadAttempt.plaintext, LoadAttempt.encrypted],
          Except.error (ScbErr.ctx "failed to load SCB" ScbErr.aeadFailed)) :=
  ⟨(load_scb_plaintext_first (Except.ok ⟨[], []⟩)
      (Except.error ScbErr.ioFailed)).1 ⟨[], []⟩ rfl,
    (load_scb_plaintext_first (Except.error ScbErr.jsonInvalid)
      (Except.ok ⟨[], []⟩)).2.1 ScbErr.jsonInvalid ⟨[], []⟩ rfl rfl,
    (load_scb_plaintext_first (Except.error ScbErr.jsonInvalid)
      (Except.error ScbErr.aeadFailed)).2.2 ScbErr.jsonInvalid ScbErr.aeadFailed
      rfl rfl⟩

/-! ## Decryption of an encrypted SCB string (`decrypt_scb_str`) -/

/-- `str::split('-')` on a character list. -/
def splitOnDash : List Char → List (List Char)
  | [] => [[]]
  | c :: rest =>
      if c = '-' then [] :: splitOnDash rest
      else
        match splitOnDash rest with
        | [] => [[c]]
        | p :: ps => (c :: p) :: ps

/-- Value of one hexadecimal digit, if the character is one. -/
def hexDigit (c : Char) : Option Nat :=
  if '0' ≤ c ∧ c ≤ '9' then some (c.toNat - '0'.toNat)
  else if 'a' ≤ c ∧ c ≤ 'f' then some (c.toNat - 'a'.toNat + 10)
  else if 'A' ≤ c ∧ c ≤ 'F' then some (c.toNat - 'A'.toNat + 10)
  else none

/-- `hex::decode`: fails on odd length or any non-hex character. -/
def hexDecode : List Char → Option (List Nat)
  | [] => some []
  | [_] => none
  | c1 :: c2 :: rest =>
      match hexDigit c1, hexDigit c2, hexDecode rest with
      | some h, some l, some bs => some ((16 * h + l) :: bs)
      | _, _, _ => none

/-- `decrypt_scb_str` from `scb.rs`: split on a dash into exactly two parts,
hex-decode the nonce and the ciphertext, then decrypt and re-encode as UTF-8.
The AEAD primitive (including key derivation from the mnemonic, which always
succeeds) and the UTF-8 decoder are oracles; the Bool records whether the
AEAD decryption was invoked. -/
def decrypt_scb_str (aead : List Nat → List Nat → Option (List Nat))
    (utf8 : List Nat → Option (List Char)) (xs : List Char) :
    Bool × Except ScbErr (List Char) :=
  match splitOnDash xs with
  | [p0, p1] =>
      match hexDecode p0 with
      | none => (false, Except.error (ScbErr.ctx "failed to decode nonce" ScbErr.hexDecodeFailed))
      | some nonce =>
          match hexDecode p1 with
          | none =>
              (false, Except.error
                (ScbErr.ctx "failed to decode encrypted data" ScbErr.hexDecodeFailed))
          | some ciphertext =>
              match aead nonce ciphertext with
              | none =>
                  (true, Except.error
                    (ScbErr.ctx "failed to decrypt ciphertext" ScbErr.aeadFailed))
              | some plaintext =>
                  match utf8 plaintext with
                  | none => (true, Except.error ScbErr.utf8Invalid)
                  | some s => (true, Except.ok s)
  | _ => (false, Except.error (ScbErr.message "invalid SCB format"))

/-- An error counts as a malformed-encoding error when it is the
`"invalid SCB format"` message or a hex-decode failure of either segment. -/
def isMalformedEncoding : ScbErr → Bool
  | ScbErr.message s => s == "invalid SCB format"
  | ScbErr.ctx c e =>
      (c == "failed to decode nonce" || c == "failed to decode encrypted data")
        && e == ScbErr.hexDecodeFailed
  | _ => false

/-- C5: decrypting an encrypted SCB string fails with a malformed-encoding
error when splitting on a dash does not yield exactly two parts or when
hex-decoding of either part fails; the AEAD decryption runs exactly when both
parts hex-decode; and an AEAD failure surfaces as an error, never as
successfully decoded data. -/
theorem decrypt_scb_str_error_paths (aead : List Nat → List Nat → Option (List Nat))
    (utf8 : List Nat → Option (List Char)) (xs : List Char) :
    ((splitOnDash xs).length ≠ 2 →
        decrypt_scb_str aead utf8 xs
            = (false, Except.error (ScbErr.message "invalid SCB format"))
          ∧ isMalformedEncoding (ScbErr.message "invalid SCB format") = true)
    ∧ (∀ p0 p1, splitOnDash xs = [p0, p1] → hexDecode p0 = none →
        decrypt_scb_str aead utf8 xs
            = (false, Except.error
                (ScbErr.ctx "failed to decode nonce" ScbErr.hexDecodeFailed))
          ∧ isMalformedEncoding
              (ScbErr.ctx "failed to decode nonce" ScbErr.hexDecodeFailed) = true)
    ∧ (∀ p0 p1 n, splitOnDash xs = [p0, p1] → hexDecode p0 = some n →
        hexDecode p1 = none →
        decrypt_scb_str aead utf8 xs
            = (false, Except.error
                (ScbErr.ctx "failed to decode encrypted data" ScbErr.hexDecodeFailed))
          ∧ isMalformedEncoding
              (ScbErr.ctx "failed to decode encrypted data" ScbErr.hexDecodeFailed) = true)
    ∧ ((decrypt_scb_str aead utf8 xs).1 = true ↔
        ∃ p0 p1 n c, splitOnDash xs = [p0, p1] ∧ hexDecode p0 = some n
          ∧ hexDecode p1 = some c)
    ∧ (∀ p0 p1 n c, splitOnDash xs = [p0, p1] → hexDecode p0 = some n →
        hexDecode p1 = some c → aead n c = none →
        decrypt_scb_str aead utf8 xs
          = (true, Except.error
              (ScbErr.ctx "failed to decrypt ciphertext" ScbErr.aeadFailed))) := by
  refine ⟨?_, ?_, ?_, ?_, ?_⟩
  · intro hlen
    refine ⟨?_, by decide⟩
    rcases hsp : splitOnDash xs with _ | ⟨p0, _ | ⟨p1, _ | ⟨p2, r⟩⟩⟩
    · simp [decrypt_scb_str, hsp]
    · simp [decrypt_scb_str, hsp]
    · exact absurd (by rw [hsp]; rfl) hlen
    · simp [decrypt_scb_str, hsp]
  · intro p0 p1 hsp h0
    refine ⟨?_, by decide⟩
    simp [decrypt_scb_str, hsp, h0]
  · intro p0 p1 n hsp h0 h1
    refine ⟨?_, by decide⟩
    simp [decrypt_scb_str, hsp, h0, h1]
  · constructor
    · intro hfst
      rcases hsp : splitOnDash xs with _ | ⟨p0, _ | ⟨p1, _ | ⟨p2, r⟩⟩⟩
      · simp [decrypt_scb_str, hsp] at hfst
      · simp [decrypt_scb_str, hsp] at hfst
      · rcases h0 : hexDecode p0 with _ | n
        · simp [decrypt_scb_str, hsp, h0] at hfst
        · rcases h1 : hexDecode p1 with _ | c
          · simp [decrypt_scb_str, hsp, h0, h1] at hfst
          · exact ⟨p0, p1, n, c, rfl, h0, h1⟩
      · simp [decrypt_scb_str, hsp] at hfst
    · rintro ⟨p0, p1, n, c, hsp, h0, h1⟩
      rcases ha : aead n c with _ | pt
      · simp [decrypt_scb_str, hsp, h0, h1, ha]
      · rcases hu : utf8 pt with _ | s <;>
          simp [decrypt_scb_str, hsp, h0, h1, ha, hu]
  · intro p0 p1 n c hsp h0 h1 ha
    simp [decrypt_scb_str, hsp, h0, h1, ha]

/-- Witness for C5 exercising every error path on concrete strings. -/
theorem decrypt_scb_str_error_paths_witness :
    decrypt_scb_str (fun _ _ => none) (fun _ => none) ['a']
      = (false, Except.error (ScbErr.message "invalid SCB format"))
    ∧ decrypt_scb_str (fun _ _ => none) (fun _ => none) ['z', 'z', '-', '0', '0']
      = (false, Except.error
          (ScbErr.ctx "failed to decode nonce" ScbErr.hexDecodeFailed))
    ∧ decrypt_scb_str (fun _ _ => none) (fun _ => none) ['0', '0', '-', 'z']
      = (false, Except.error
          (ScbErr.ctx "failed to decode encrypted data" ScbErr.hexDecodeFailed))
    ∧ decrypt_scb_str (fun _ _ => none) (fun _ => none) ['0', '0', '-', 'f', 'f']
      = (true, Except.error
          (ScbErr.ctx "failed to decrypt ciphertext" ScbErr.aeadFailed))
    ∧ (decrypt_scb_str (fun _ _ => none) (fun _ => none) ['0', '0', '-', 'f', 'f']).1
      = true :=
  ⟨((decrypt_scb_str_error_paths (fun _ _ => none) (fun _ => none) ['a']).1
      (by decide)).1,
    ((decrypt_scb_str_error_paths (fun _ _ => none) (fun _ => none)
      ['z', 'z', '-', '0', '0']).2.1 ['z', 'z'] ['0', '0'] (by decide) (by decide)).1,
    ((decrypt_scb_str_error_paths (fun _ _ => none) (fun _ => none)
      ['0', '0', '-', 'z']).2.2.1 ['0', '0'] ['z'] [0] (by decide) (by decide)
      (by decide)).1,
    (decrypt_scb_str_error_paths (fun _ _ => none) (fun _ => none)
      ['0', '0', '-', 'f', 'f']).2.2.2.2 ['0', '0'] ['f', 'f'] [0] [255]
      (by decide) (by decide) (by decide) rfl,
    (decrypt_scb_str_error_paths (fun _ _ => none) (fun _ => none)
      ['0', '0', '-', 'f', 'f']).2.2.2.1.mpr
      ⟨['0', '0'], ['f', 'f'], [0], [255], by decide, by decide, by decide⟩⟩

/-! ## The balance check (`src/node_tasks/balance.rs`)

Channel ids are opaque 32-byte values, modelled as naturals; satoshi amounts
are `u64` values, so additions are reduced modulo `2 ^ 64`. -/

/-- The `u64` modulus. -/
def U64 : Nat := 2 ^ 64

/-- Wrapping `u64` addition. -/
def wadd (a b : Nat) : Nat := (a + b) % U64

/-- `Iterator::reduce(|total, amount| total + amount).unwrap_or(0)` with
wrapping additions. -/
def reduceAdd : List Nat → Nat
  | [] => 0
  | a :: rest => rest.foldl wadd a

/-- `LightningBalance` from `ldk_node`, restricted to the fields the balance
check reads. -/
inductive LightningBalance
  | ClaimableOnChannelClose (channel_id : Nat) (amount_satoshis : Nat)
  | ClaimableAwaitingConfirmations (channel_id : Nat) (amount_satoshis : Nat)
  | ContentiousClaimable (channel_id : Nat) (amount_satoshis : Nat)
  | MaybeTimeoutClaimableHTLC (channel_id : Nat) (amount_satoshis : Nat)
  | MaybePreimageClaimableHTLC (channel_id : Nat) (amount_satoshis : Nat)
  | CounterpartyRevokedOutputClaimable (channel_id : Nat) (amount_satoshis : Nat)
deriving DecidableEq, Repr

/-- `get_ln_balance_channel_amount` from `node_tasks/balance.rs`. -/
def get_ln_balance_channel_amount : LightningBalance → Nat × Nat
  | LightningBalance.ClaimableOnChannelClose cid amt => (cid, amt)
  | LightningBalance.ClaimableAwaitingConfirmations cid amt => (cid, amt)
  | LightningBalance.ContentiousClaimable cid amt => (cid, amt)
  | LightningBalance.MaybeTimeoutClaimableHTLC cid amt => (cid, amt)
  | LightningBalance.MaybePreimageClaimableHTLC cid amt => (cid, amt)
  | LightningBalance.CounterpartyRevokedOutputClaimable cid amt => (cid, amt)

/-- `PendingSweepBalance` from `ldk_node`, restricted to the fields the
balance check reads. -/
inductive PendingSweepBalance
  | PendingBroadcast (channel_id : Option Nat) (amount_satoshis : Nat)
  | BroadcastAwaitingConfirmation (channel_id : Option Nat) (amount_satoshis : Nat)
  | AwaitingThresholdConfirmations (channel_id : Option Nat) (amount_satoshis : Nat)
deriving DecidableEq, Repr

/-- `get_pending_sweep_balance_amount` from `node_tasks/balance.rs`. -/
def get_pending_sweep_balance_amount : PendingSweepBalance → Nat
  | PendingSweepBalance.PendingBroadcast _ amt => amt
  | PendingSweepBalance.BroadcastAwaitingConfirmation _ amt => amt
  | PendingSweepBalance.AwaitingThresholdConfirmations _ amt => amt

/-- The `BalanceDetails` fields read by the balance check. -/
structure BalanceDetails where
  lightning_balances : List LightningBalance
  pending_balances_from_channel_closures : List PendingSweepBalance
  spendable_onchain_balance_sats : Nat
  total_onchain_balance_sats : Nat
  total_anchor_channels_reserve_sats : Nat
deriving DecidableEq, Repr

/-- The `claimable` value computed by one tick of the balance task: the
reduced sum of lightning-balance amounts whose channel id is not among the
ids listed by the node. -/
def tickClaimable (channel_ids : List Nat) (bal : BalanceDetails) : Nat :=
  reduceAdd (bal.lightning_balances.filterMap (fun b =>
    if channel_ids.contains (get_ln_balance_channel_amount b).1 then none
    else some (get_ln_balance_channel_amount b).2))

/-- The `pending_sweep` value computed by one tick of the balance task. -/
def tickPendingSweep (bal : BalanceDetails) : Nat :=
  reduceAdd (bal.pending_balances_from_channel_closures.map
    get_pending_sweep_balance_amount)

/-- One tick of the closure spawned by `spawn_balance_task`, returning
whether `stop_clone.stop()` was called. -/
def balanceTaskTick (channel_ids : List Nat) (bal : BalanceDetails) : Bool :=
  wadd (tickClaimable channel_ids bal) (tickPendingSweep bal) == 0

theorem foldl_wadd_eq (l : List Nat) :
    ∀ a, a < U64 → l.foldl wadd a = (a + l.sum) % U64 := by
  induction l with
  | nil =>
      intro a ha
      simp [Nat.mod_eq_of_lt ha]
  | cons x xs ih =>
      intro a ha
      rw [List.foldl_cons, ih (wadd a x) (Nat.mod_lt _ (by decide))]
      rw [wadd, Nat.mod_add_mod, List.sum_cons]
      ring_nf

theorem reduceAdd_eq_sum_mod (l : List Nat) (h : ∀ a ∈ l, a < U64) :
    reduceAdd l = l.sum % U64 := by
  cases l with
  | nil => rfl
  | cons x xs =>
      rw [reduceAdd, foldl_wadd_eq xs x (h x (List.mem_cons_self x xs)),
        List.sum_cons]

/-- C3: one tick of the balance check signals the global stop if and only if
`claimable + pending_sweep == 0` in `u64` arithmetic, where `claimable` sums
the lightning-balance amounts whose channel id is not among the channels
currently listed by the node engine and `pending_sweep` sums all
pending-sweep amounts; in particular, for any snapshot whose (wrapped) sum is
positive, no stop is signalled. -/
theorem balance_tick_stop_iff_zero (channel_ids : List Nat) (bal : BalanceDetails)
    (hl : ∀ b ∈ bal.lightning_balances, (get_ln_balance_channel_amount b).2 < U64)
    (hp : ∀ b ∈ bal.pending_balances_from_channel_closures,
      get_pending_sweep_balance_amount b < U64) :
    balanceTaskTick channel_ids bal = true ↔
      (((bal.lightning_balances.filter (fun b =>
            channel_ids.contains (get_ln_balance_channel_amount b).1 = false)).map
          (fun b => (get_ln_balance_channel_amount b).2)).sum
        + (bal.pending_balances_from_channel_closures.map
            get_pending_sweep_balance_amount).sum) % U64 = 0 := by
  have hfm : ∀ (l : List LightningBalance),
      l.filterMap (fun b =>
        if channel_ids.contains (get_ln_balance_channel_amount b).1 then none
        else some (get_ln_balance_channel_amount b).2)
      = (l.filter (fun b =>
          channel_ids.contains (get_ln_balance_channel_amount b).1 = false)).map
        (fun b => (get_ln_balance_channel_amount b).2) := by
    intro l
    induction l with
    | nil => rfl
    | cons b rest ih =>
        rw [List.filterMap_cons, List.filter_cons]
        cases hb : channel_ids.contains (get_ln_balance_channel_amount b).1 with
        | false => rw [ih]; simp
        | true => rw [ih]; simp
  have hcl : tickClaimable channel_ids bal
      = (((bal.lightning_balances.filter (fun b =>
            channel_ids.contains (get_ln_balance_channel_amount b).1 = false)).map
          (fun b => (get_ln_balance_channel_amount b).2)).sum) % U64 := by
    rw [tickClaimable, hfm bal.lightning_balances]
    apply reduceAdd_eq_sum_mod
    intro a ha
    rw [List.mem_map] at ha
    obtain ⟨b, hb, hab⟩ := ha
    rw [← hab]
    exact hl b (List.mem_of_mem_filter hb)
  have hps : tickPendingSweep bal
      = ((bal.pending_balances_from_channel_closures.map
          get_pending_sweep_balance_amount).sum) % U64 := by
    rw [tickPendingSweep]
    apply reduceAdd_eq_sum_mod
    intro a ha
    rw [List.mem_map] at ha
    obtain ⟨b, hb, hab⟩ := ha
    rw [← hab]
    exact hp b hb
  rw [balanceTaskTick, hcl, hps, wadd, Nat.mod_add_mod, Nat.add_mod_mod]
  simp

/-- Witness for C3: an empty snapshot signals stop (sum is zero). -/
theorem balance_tick_stop_iff_zero_witness :
    balanceTaskTick [] ⟨[], [], 0, 0, 0⟩ = true ↔
      (((([] : List LightningBalance).filter (fun b =>
            ([] : List Nat).contains (get_ln_balance_channel_amount b).1 = false)).map
          (fun b => (get_ln_balance_channel_amount b).2)).sum
        + (([] : List PendingSweepBalance).map get_pending_sweep_balance_amount).sum)
        % U64 = 0 :=
  balance_tick_stop_iff_zero [] ⟨[], [], 0, 0, 0⟩ (by simp) (by simp)

/-! ## The periodic task loop (`src/periodic_blocking_task.rs`)

`PeriodicBlockingTask::spawn` runs `loop { f(); sleep(period); if
stop.is_stopped() { break } }`.  One loop iteration is a block of three
events — the unit of work, the sleep, and the stop check — and the trace is
the finite prefix of the event sequence produced by unrolling the loop `fuel`
times; `stopAt n` is the value `is_stopped()` returns at the `n`-th check. -/

/-- Events of the periodic task loop, numbered by iteration. -/
inductive TaskEvent
  | work (n : Nat)
  | sleep (n : Nat)
  | check (n : Nat)
deriving DecidableEq, Repr

/-- The iteration number an event belongs to. -/
def TaskEvent.idx : TaskEvent → Nat
  | TaskEvent.work n => n
  | TaskEvent.sleep n => n
  | TaskEvent.check n => n

/-- The event trace of the loop of `PeriodicBlockingTask::spawn`, starting
at iteration `k` and unrolled at most `fuel` iterations. -/
def taskTrace (stopAt : Nat → Bool) : Nat → Nat → List TaskEvent
  | 0, _ => []
  | fuel + 1, k =>
      TaskEvent.work k :: TaskEvent.sleep k :: TaskEvent.check k ::
        (if stopAt k then [] else taskTrace stopAt fuel (k + 1))

/-- Every event of a trace starting at iteration `k0` belongs to iteration
`k0` or later. -/
theorem taskTrace_idx_ge (stopAt : Nat → Bool) :
    ∀ (fuel k0 : Nat) (e : TaskEvent), e ∈ taskTrace stopAt fuel k0 → k0 ≤ e.idx := by
  intro fuel
  induction fuel with
  | zero => intro k0 e he; simp [taskTrace] at he
  | succ n ih =>
      intro k0 e he
      rw [taskTrace] at he
      simp only [List.mem_cons] at he
      rcases he with he | he | he | he
      · rw [he]; simp [TaskEvent.idx]
      · rw [he]; simp [TaskEvent.idx]
      · rw [he]; simp [TaskEvent.idx]
      · by_cases hstop : stopAt k0
        · rw [if_pos hstop] at he; simp at he
        · rw [if_neg hstop] at he
          have := ih (k0 + 1) e he
          omega

theorem taskTrace_sleep_sublist (stopAt : Nat → Bool) :
    ∀ (fuel k0 k : Nat), k0 ≤ k →
      TaskEvent.sleep (k + 1) ∈ taskTrace stopAt fuel k0 →
      List.Sublist [TaskEvent.work k, TaskEvent.sleep k, TaskEvent.check k,
        TaskEvent.sleep (k + 1)] (taskTrace stopAt fuel k0) := by
  intro fuel
  induction fuel with
  | zero => intro k0 k _ hmem; simp [taskTrace] at hmem
  | succ n ih =>
      intro k0 k hk0 hmem
      rw [taskTrace] at hmem ⊢
      have hrest : TaskEvent.sleep (k + 1)
          ∈ (if stopAt k0 then [] else taskTrace stopAt n (k0 + 1)) := by
        simp only [List.mem_cons] at hmem
        rcases hmem with h | h | h | h
        · exact absurd h (by simp)
        · exact absurd h (by simp; omega)
        · exact absurd h (by simp)
        · exact h
      by_cases hstop : stopAt k0
      · rw [if_pos hstop] at hrest; simp at hrest
      · rw [if_neg hstop] at hrest ⊢
        rcases Nat.eq_or_lt_of_le hk0 with heq | hlt
        · subst heq
          exact (List.cons_sublist_cons.mpr (List.cons_sublist_cons.mpr
            (List.cons_sublist_cons.mpr (List.singleton_sublist.mpr hrest))))
        · have hk1 : k0 + 1 ≤ k := hlt
          have hsub := ih (k0 + 1) k hk1 hrest
          exact hsub.cons _ |>.cons _ |>.cons _

theorem taskTrace_no_work_after_stop (stopAt : Nat → Bool) :
    ∀ (fuel k0 k j : Nat), stopAt k = true →
      TaskEvent.check k ∈ taskTrace stopAt fuel k0 →
      TaskEvent.work j ∈ taskTrace stopAt fuel k0 → j ≤ k := by
  intro fuel
  induction fuel with
  | zero => intro k0 k j _ hchk _; simp [taskTrace] at hchk
  | succ n ih =>
      intro k0 k j hstop hchk hwork
      rw [taskTrace] at hchk hwork
      have hchk' : k = k0 ∨ TaskEvent.check k
          ∈ (if stopAt k0 then [] else taskTrace stopAt n (k0 + 1)) := by
        simp only [List.mem_cons] at hchk
        rcases hchk with h | h | h | h
        · exact absurd h (by simp)
        · exact absurd h (by simp)
        · exact Or.inl (by injection h)
        · exact Or.inr h
      have hwork' : j = k0 ∨ TaskEvent.work j
          ∈ (if stopAt k0 then [] else taskTrace stopAt n (k0 + 1)) := by
        simp only [List.mem_cons] at hwork
        rcases hwork with h | h | h | h
        · exact Or.inl (by injection h)
        · exact absurd h (by simp)
        · exact absurd h (by simp)
        · exact Or.inr h
      by_cases hs0 : stopAt k0
      · rw [if_pos hs0] at hchk' hwork'
        rcases hwork' with hj | hj
        · rcases hchk' with hk | hk
          · omega
          · simp at hk
        · simp at hj
      · rw [if_neg hs0] at hchk' hwork'
        have hkne : ¬ k = k0 := by
          intro hk
          rw [hk] at hstop
          rw [hstop] at hs0
          exact hs0 rfl
        rcases hchk' with hk | hk
        · exact absurd hk hkne
        · rcases hwork' with hj | hj
          · have := taskTrace_idx_ge stopAt n (k0 + 1) (TaskEvent.check k) hk
            simp [TaskEvent.idx] at this
            omega
          · exact ih (k0 + 1) k j hstop hk hj

/-- C7: in the loop of every periodic operation, after completing a unit of
work the task sleeps once and then checks the stop signal before sleeping
again (the check of iteration `k` lies between the work of iteration `k` and
the sleep of iteration `k + 1`), and once the stop signal is observed at a
check the loop exits: no later unit of work ever starts. -/
theorem periodic_task_checks_stop (stopAt : Nat → Bool) (fuel k j : Nat) :
    (TaskEvent.sleep (k + 1) ∈ taskTrace stopAt fuel 0 →
        List.Sublist [TaskEvent.work k, TaskEvent.sleep k, TaskEvent.check k,
          TaskEvent.sleep (k + 1)] (taskTrace stopAt fuel 0))
    ∧ (stopAt k = true → TaskEvent.check k ∈ taskTrace stopAt fuel 0 →
        TaskEvent.work j ∈ taskTrace stopAt fuel 0 → j ≤ k) :=
  ⟨fun hmem => taskTrace_sleep_sublist stopAt fuel 0 k (Nat.zero_le k) hmem,
    fun hstop hchk hwork =>
      taskTrace_no_work_after_stop stopAt fuel 0 k j hstop hchk hwork⟩

/-- Witness for C7 with a stop signal first observed at the second check. -/
theorem periodic_task_checks_stop_witness :
    List.Sublist [TaskEvent.work 0, TaskEvent.sleep 0, TaskEvent.check 0,
        TaskEvent.sleep 1] (taskTrace (fun n => decide (n = 1)) 3 0)
    ∧ (1 : Nat) ≤ 1 :=
  ⟨(periodic_task_checks_stop (fun n => decide (n = 1)) 3 0 0).1 (by decide),
    (periodic_task_checks_stop (fun n => decide (n = 1)) 3 1 1).2
      (by decide) (by decide) (by decide)⟩

/-! ## Event draining (`src/node_tasks/event_loop.rs` and `src/main.rs`)

The node's pending event queue is a list; `next_event` returns its head and
`event_handled` removes it.  `nodeEventTick` is one tick of the closure in
`spawn_node_event_loop_task`; `mainEventDrain` is the inner `loop` of `run`'s
monitoring phase.  Each returns the acknowledged events and the remaining
queue. -/

/-- One tick of the periodic event-drain task: `if let Some(event) =
node.next_event() { ...; node.event_handled(); }` — at most one event. -/
def nodeEventTick {α : Type} (queue : List α) : List α × List α :=
  match queue with
  | [] => ([], [])
  | e :: rest => ([e], rest)

/-- The inner event loop of `run`: pull and acknowledge until `next_event`
returns none. -/
def mainEventDrain {α : Type} : List α → List α × List α
  | [] => ([], [])
  | e :: rest =>
      let r := mainEventDrain rest
      (e :: r.1, r.2)

/-- C8, counterexample: one tick of the periodic event-drain task pulls at
most one event, so with two pending events the queue is not empty after the
tick completes. -/
theorem event_tick_counterexample :
    (nodeEventTick ([0, 1] : List Nat)).2 = [1]
    ∧ ¬ (nodeEventTick ([0, 1] : List Nat)).2 = [] := by
  decide

/-- C8, amended: each tick of the periodic event-drain task pulls and
acknowledges at most one pending event (the head of the queue), leaving the
tail queued; it is the inline event loop in `run`'s monitoring phase that
repeatedly pulls and acknowledges until none remain, leaving the queue
empty. -/
theorem event_drain_behavior {α : Type} (q : List α) :
    (nodeEventTick q).1 = q.take 1 ∧ (nodeEventTick q).2 = q.drop 1
    ∧ (mainEventDrain q).1 = q ∧ (mainEventDrain q).2 = [] := by
  refine ⟨?_, ?_, ?_, ?_⟩
  · cases q <;> rfl
  · cases q <;> rfl
  · induction q with
    | nil => rfl
    | cons e rest ih => simp [mainEventDrain, ih]
  · induction q with
    | nil => rfl
    | cons e rest ih => simp [mainEventDrain, ih]

end HubRecovery
